import Mathlib

/-!
# IPv6 target sources of ZMapv6 (`src/ipv6_target_file.c`)

A shallow embedding of the prefix address source (`increment_in6_addr`,
`is_addr_included_in_prefix`, `ipv6_target_prefix_get_ipv6`,
`ipv6_target_prefix_init`) and of the file address source
(`ipv6_target_file_get_ipv6`), followed by theorems about them.

Modelling conventions.
* A `struct in6_addr` is its byte array `s6_addr`, a list of naturals, index 0
  first.  A well-formed address (`in6_wf`) has 16 entries, each below 256.
* Every read and write of the array goes through `load` and `store`.  An index
  outside the array is undefined behaviour in C; the embedding answers `none`
  there, and `none` propagates to the caller.
* `unsigned int` and `int` values are naturals and integers; the conversion of
  the `int` field `prefixlen` to `unsigned int` is `to_unsigned`.
* The file-static `target_prefix` record is passed in and handed back
  explicitly, and so is the caller's `dst`.
* A C string is the list of its characters, without the terminator.  The open
  stream `fp` is the list of the characters still to be read.
* The C library calls `sscanf`, `fgets` and `strchr` are written out for the
  arguments that the sources give them; `inet_pton` is a parameter.
-/

namespace Zmap

/-- The byte array `s6_addr` of a `struct in6_addr`. -/
abbrev in6_addr := List Nat

/-- The record `struct in6_prefix`. -/
structure in6_prefix where
  addr : in6_addr
  prefixlen : Int
deriving DecidableEq

/-- Read `a.s6_addr[i]`; `none` when `i` is outside the array. -/
def load (a : in6_addr) (i : Nat) : Option Nat := a[i]?

/-- Write `a.s6_addr[i] = v`, with the conversion of `v` to `unsigned char`;
`none` when `i` is outside the array. -/
def store (a : in6_addr) (i : Nat) (v : Nat) : Option in6_addr :=
  if i < a.length then some (a.set i (v % 256)) else none

/-- The loop `for (int i = 14; i >= 0; i--)` of `increment_in6_addr`.  The first
argument is `i + 1`, so `0` is the exit `i < 0`. -/
def increment_carry_loop : Nat → Nat → in6_addr → Option in6_addr
  | 0, _, addr => some addr
  | i + 1, carry_up, addr => do
      let b ← load addr i
      let incremented_bits := b + carry_up
      let carry_up := if incremented_bits >>> 8 ≠ 0 then 1 else 0
      let addr ← store addr i (incremented_bits &&& 0xff)
      if carry_up = 0 then some addr else increment_carry_loop i carry_up addr

/-- The function `increment_in6_addr`, returning the updated `*addr`. -/
def increment_in6_addr (addr : in6_addr) : Option in6_addr := do
  let b ← load addr 15
  let incremented_bits := b + 1
  let carry_up := if incremented_bits >>> 8 ≠ 0 then 1 else 0
  let addr ← store addr 15 (incremented_bits &&& 0xff)
  increment_carry_loop 15 carry_up addr

/-- Conversion of an `int` to `unsigned int` (32 bits). -/
def to_unsigned (n : Int) : Nat := (n % 4294967296).toNat

/-- The loop `for (int i = prefixlen / 8 + 1; i < 15; i++) mask.s6_addr[i] = 0;`
started at `i`.  The first argument bounds the number of guard evaluations. -/
def mask_clear_loop : Nat → Nat → in6_addr → Option in6_addr
  | 0, _, _ => none
  | fuel + 1, i, mask =>
      if i < 15 then do
        let mask ← store mask i 0
        mask_clear_loop fuel (i + 1) mask
      else some mask

/-- The loop `for (int i = 0; i < 15; i++)` comparing mask and address, started
at `i`; the result is the final `is_same`.  The first argument bounds the number
of guard evaluations. -/
def mask_compare_loop : Nat → Nat → in6_addr → in6_addr → Option Nat
  | 0, _, _, _ => none
  | fuel + 1, i, mask, addr =>
      if i < 15 then do
        let m ← load mask i
        let a ← load addr i
        let bits := (m &&& a) % 256
        if m ≠ bits then some 0 else mask_compare_loop fuel (i + 1) mask addr
      else some 1

/-- The function `is_addr_included_in_prefix`.  The initialiser of `mask` is read
as a copy of `prefix->addr`, the address stored in the record that is passed in;
the result is the final `is_same`. -/
def is_addr_included_in_prefix (pfx : in6_prefix) (addr : in6_addr) : Option Nat := do
  let prefixlen := to_unsigned pfx.prefixlen
  let mask := pfx.addr
  let m ← load mask (prefixlen / 8)
  let mask ← store mask (prefixlen / 8) (m &&& (0xff <<< (prefixlen % 8)))
  let mask ← mask_clear_loop 16 (prefixlen / 8 + 1) mask
  mask_compare_loop 16 0 mask addr

/-- The function `ipv6_target_prefix_get_ipv6` on an installed `target_prefix`
record.  The result is the return code, the record after the call and the
contents of `*dst` after the call. -/
def ipv6_target_prefix_get_ipv6 ( target_prefix : in6_prefix) (dst : in6_addr) :
    Option (Nat × in6_prefix × in6_addr) := do
  let next ← increment_in6_addr target_prefix.addr
  let included ← is_addr_included_in_prefix target_prefix next
  if included = 0 then some (1, target_prefix, dst)
  else some (0, { target_prefix with addr := next }, next)

/-- The tail of `ipv6_target_prefix_init` from the range check on: the test
`prefixlen < 0 || prefixlen < 129`, then either the `fail:` exit (the record is
freed, `target_prefix` is `NULL`, the result is 1) or the store of `prefixlen`
and the result 0.  `addr` is the address that `inet_pton` wrote into the
record.  The result is the return code and `target_prefix` after the call. -/
def ipv6_target_prefix_init_check (addr : in6_addr) (prefixlen : Int) :
    Nat × Option in6_prefix :=
  if prefixlen < 0 ∨ prefixlen < 129 then (1, none)
  else (0, some { addr := addr, prefixlen := prefixlen })

/-- The outcomes of the first `n` calls of `ipv6_target_prefix_get_ipv6`, each
made on the record and the `*dst` that the call before left: the return code and
the contents of `*dst` after every call.  The list ends early at a call with
undefined behaviour. -/
def prefix_calls : Nat → in6_prefix → in6_addr → List (Nat × in6_addr)
  | 0, _, _ => []
  | n + 1, target_prefix, dst =>
      match ipv6_target_prefix_get_ipv6 target_prefix dst with
      | none => []
      | some (rc, target_prefix1, dst1) => (rc, dst1) :: prefix_calls n target_prefix1 dst1

/-- The addresses that the successful calls (return code 0) among the first `n`
calls of `ipv6_target_prefix_get_ipv6` hand to the caller, in call order. -/
def returned_addrs : Nat → in6_prefix → in6_addr → List in6_addr
  | 0, _, _ => []
  | n + 1, target_prefix, dst =>
      match ipv6_target_prefix_get_ipv6 target_prefix dst with
      | none => []
      | some (rc, target_prefix1, dst1) =>
          if rc = 0 then dst1 :: returned_addrs n target_prefix1 dst1
          else returned_addrs n target_prefix1 dst1

/-- The mask that `is_addr_included_in_prefix` has built when its comparison
loop starts: the first statements of that function, up to the end of the
clearing loop. -/
def prefix_mask (pfx : in6_prefix) : Option in6_addr := do
  let prefixlen := to_unsigned pfx.prefixlen
  let mask := pfx.addr
  let m ← load mask (prefixlen / 8)
  let mask ← store mask (prefixlen / 8) (m &&& (0xff <<< (prefixlen % 8)))
  mask_clear_loop 16 (prefixlen / 8 + 1) mask

/-! ### The library functions that the sources call -/

/-- The constant `INET6_ADDRSTRLEN` of `<arpa/inet.h>`. -/
def INET6_ADDRSTRLEN : Nat := 46

/-- The line terminator. -/
def newline : Char := Char.ofNat 10

/-- The character that ends a C string. -/
def nul : Char := Char.ofNat 0

/-- The C function `isspace` in the C locale. -/
def is_space (c : Char) : Bool := c.toNat = 32 || (9 ≤ c.toNat && c.toNat ≤ 13)

/-- The C function `isdigit`. -/
def is_digit (c : Char) : Bool := 48 ≤ c.toNat && c.toNat ≤ 57

/-- The number that a run of decimal digits denotes. -/
def digits_value (ds : List Char) : Nat :=
  ds.foldl (fun acc c => acc * 10 + (c.toNat - 48)) 0

/-- The directive `%d` of `sscanf`: white space is skipped, then an optional sign
and the longest run of decimal digits are read; `none` is a matching or input
failure.  The result is the number that was read; whether the `int` that
receives it can hold it is tested where it is stored, in
`ipv6_target_prefix_init`. -/
def scan_int (input : List Char) : Option Int :=
  let s := input.dropWhile is_space
  let signed : Bool × List Char :=
    match s with
    | c :: r => if c = '-' then (true, r) else if c = '+' then (false, r) else (false, s)
    | [] => (false, [])
  let ds := signed.2.takeWhile is_digit
  if ds = [] then none
  else some (if signed.1 then -(digits_value ds : Int) else (digits_value ds : Int))

/-- What `sscanf(prefix, "%s/%d", addr_str, &prefixlen)` leaves: its result, the
string stored in `addr_str` (empty when nothing was stored) and the integer
stored in `prefixlen`, if one was. -/
structure sscanf_result where
  ret : Int
  addr_str : List Char
  prefixlen : Option Int
deriving DecidableEq

/-- The call `sscanf(prefix, "%s/%d", addr_str, &prefixlen)`.  `%s` skips white
space and stores the longest run of characters that are not white space; the
next input character must then be `/`; then `%d` is read.  The result is the
number of items stored, or `EOF` (-1) when the input ends before the first
item. -/
def prefix_sscanf (input : List Char) : sscanf_result :=
  let s := input.dropWhile is_space
  if s = [] then { ret := -1, addr_str := [], prefixlen := none }
  else
    let tok := s.takeWhile (fun c => !is_space c)
    match s.dropWhile (fun c => !is_space c) with
    | c :: rest =>
        if c = '/' then
          match scan_int rest with
          | some n => { ret := 2, addr_str := tok, prefixlen := some n }
          | none => { ret := 1, addr_str := tok, prefixlen := none }
        else { ret := 1, addr_str := tok, prefixlen := none }
    | [] => { ret := 1, addr_str := tok, prefixlen := none }

/-- The reading loop of `fgets`: at most `n` characters are taken from the
stream, and reading stops after a newline or at the end of the stream.  The
result is the characters stored and the rest of the stream. -/
def fgets_read : Nat → List Char → List Char × List Char
  | 0, s => ([], s)
  | _ + 1, [] => ([], [])
  | n + 1, c :: s =>
      if c = newline then ([c], s)
      else (c :: (fgets_read n s).1, (fgets_read n s).2)

/-- The call `fgets(line, size, fp)` on a stream given by the characters still to
be read: `none` is the result `NULL` (nothing read), otherwise the characters
stored in `line` and the rest of the stream. -/
def fgets (size : Nat) (fp : List Char) : Option (List Char × List Char) :=
  if (fgets_read (size - 1) fp).1 = [] then none else some (fgets_read (size - 1) fp)

/-- The C string that a buffer holds: its characters before the first NUL. -/
def c_string (buf : List Char) : List Char := buf.takeWhile (fun c => c ≠ nul)

/-- Modelled from the spec: the function `log_fatal` of `lib/logger.h`, which is
not among the sources.  The spec has failures reported to a fatal-logging
collaborator and leaves the exit policy to the caller, so the call adds its
message argument to the reports and returns. -/
def log_fatal (reports : List (List Char)) (msg : List Char) : List (List Char) :=
  reports ++ [msg]

/-! ### The file source and the initialisation of the prefix source

The library function `inet_pton(AF_INET6, ·, dst)` is a parameter `inet_pton`:
`some a` when it returns 1 and stores `a`, `none` when it stores nothing. -/

/-- The function `ipv6_target_prefix_init` on the configuration string `pfx`,
with `target_prefix` as it is before the call (`none` is `NULL`).  The result is
the return code and `target_prefix` after the call; it is `none` when `%s` writes
past the end of `addr_str`, which has room for `INET6_ADDRSTRLEN` characters
including the terminator, and when `%d` reads a number that the `int` variable
`prefixlen` cannot hold. -/
def ipv6_target_prefix_init (inet_pton : List Char → Option in6_addr)
    ( target_prefix : Option in6_prefix) (pfx : List Char) :
    Option (Nat × Option in6_prefix) :=
  let r := prefix_sscanf pfx
  if INET6_ADDRSTRLEN < r.addr_str.length + 1 then none
  else if r.ret ≠ 2 then some (1, target_prefix)
  else
    match r.prefixlen with
    | none => none
    | some prefixlen =>
        if prefixlen < -2147483648 ∨ 2147483647 < prefixlen then none
        else
          match inet_pton r.addr_str with
          | none => some (1, none)
          | some addr => some ( ipv6_target_prefix_init_check addr prefixlen)

/-- What a call of `ipv6_target_file_get_ipv6` leaves: the return code, the rest
of the stream, the contents of `*dst` and the reports made through
`log_fatal`. -/
structure file_outcome where
  rc : Nat
  fp : List Char
  dst : in6_addr
  fatal : List (List Char)
deriving DecidableEq

/-- The function `ipv6_target_file_get_ipv6` on an open stream `fp`.  The line
handed to `inet_pton` is the C string in the buffer, cut at its first newline
(`strchr` and the store of the terminator). -/
def ipv6_target_file_get_ipv6 (inet_pton : List Char → Option in6_addr) (fp : List Char)
    (dst : in6_addr) : file_outcome :=
  match fgets 100 fp with
  | some (buf, fp1) =>
      let line := (c_string buf).takeWhile (fun c => c ≠ newline)
      match inet_pton line with
      | some addr => { rc := 0, fp := fp1, dst := addr, fatal := [] }
      | none => { rc := 1, fp := fp1, dst := dst, fatal := log_fatal [] line }
  | none => { rc := 1, fp := fp, dst := dst, fatal := [] }

/-- The outcomes of the first `n` calls of `ipv6_target_file_get_ipv6` on a
stream: the return code and the contents of `*dst` after every call. -/
def file_calls (inet_pton : List Char → Option in6_addr) :
    Nat → List Char → in6_addr → List (Nat × in6_addr)
  | 0, _, _ => []
  | n + 1, fp, dst =>
      ((ipv6_target_file_get_ipv6 inet_pton fp dst).rc,
          (ipv6_target_file_get_ipv6 inet_pton fp dst).dst) ::
        file_calls inet_pton n (ipv6_target_file_get_ipv6 inet_pton fp dst).fp
          (ipv6_target_file_get_ipv6 inet_pton fp dst).dst

/-! ## Notions used to state the properties -/

/-- Well-formed address: 16 bytes. -/
def in6_wf (a : in6_addr) : Prop := a.length = 16 ∧ ∀ x ∈ a, x < 256

instance in6_wf_decidable (a : in6_addr) : Decidable (in6_wf a) := by
  unfold in6_wf; infer_instance

/-- The unsigned integer that a byte list denotes, byte 0 most significant. -/
def value : in6_addr → Nat
  | [] => 0
  | x :: xs => x * 256 ^ xs.length + value xs

/-- The big-endian encoding of `n` in `k` bytes. -/
def encode_bytes : Nat → Nat → in6_addr
  | 0, _ => []
  | k + 1, n => (n / 256 ^ k % 256) :: encode_bytes k n

/-- The big-endian 16-byte encoding of `n`. -/
def encode (n : Nat) : in6_addr := encode_bytes 16 n

/-- Address `a` lies in the prefix `b/p`: the first `p` bits of `a` are the
first `p` bits of `b`. -/
def in_prefix (b : in6_addr) (p : Nat) (a : in6_addr) : Prop :=
  value a / 2 ^ (128 - p) = value b / 2 ^ (128 - p)

instance in_prefix_decidable (b : in6_addr) (p : Nat) (a : in6_addr) :
    Decidable ( in_prefix b p a) := by
  unfold in_prefix; infer_instance

/-- The address `2001:db8::` with its last two bytes replaced by `hi`, `lo`. -/
def doc_addr (hi lo : Nat) : in6_addr :=
  [0x20, 0x01, 0x0d, 0xb8, 0, 0, 0, 0, 0, 0, 0, 0, 0, 0, hi, lo]

/-- The address `::` with its last two bytes replaced by `hi`, `lo`. -/
def low_addr (hi lo : Nat) : in6_addr :=
  [0, 0, 0, 0, 0, 0, 0, 0, 0, 0, 0, 0, 0, 0, hi, lo]

/-- The byte `x` with only its top `k` bits kept and its low `8 - k` bits
cleared. -/
def keep_top_bits (k x : Nat) : Nat := x / 2 ^ (8 - k) * 2 ^ (8 - k)

/-- A fragment of `inet_pton(AF_INET6, ·, dst)` for concrete instances: its
answers on the literals `2001:db8::`, `2001:db8::1` and `2001:db8::2`; every
other string is refused. -/
def inet_pton_doc (s : List Char) : Option in6_addr :=
  if s = "2001:db8::".toList then some (doc_addr 0 0)
  else if s = "2001:db8::1".toList then some (doc_addr 0 1)
  else if s = "2001:db8::2".toList then some (doc_addr 0 2)
  else none

/-- The text stream made of the given lines, each followed by a newline; the
newline after the last line is left out when `last_newline` is false. -/
def stream_of : List (List Char) → Bool → List Char
  | [], _ => []
  | [l], false => l
  | l :: rest, last_newline => l ++ newline :: stream_of rest last_newline

/-- The line `l` is a literal that `inet_pton` accepts with value `v`, and it is
a line of text shorter than the line buffer: it is not empty, holds neither a
newline nor a NUL, and fits the buffer together with its terminator and the end
of the string. -/
def valid_line (inet_pton : List Char → Option in6_addr) (l : List Char) (v : in6_addr) :
    Prop :=
  inet_pton l = some v ∧ l ≠ [] ∧ newline ∉ l ∧ nul ∉ l ∧ l.length + 2 ≤ 100

instance valid_line_decidable (inet_pton : List Char → Option in6_addr) (l : List Char)
    (v : in6_addr) : Decidable (valid_line inet_pton l v) := by
  unfold valid_line; infer_instance

/-- A line of 113 bytes: the literal `2001:db8::1`, a NUL, a hundred letters `x`
and the newline. -/
def nul_line : List Char :=
  "2001:db8::1".toList ++ nul :: (List.replicate 100 'x' ++ [newline])

/-- A line of 111 bytes: 99 letters `x`, the literal `2001:db8::1` and the
newline. -/
def long_line : List Char :=
  List.replicate 99 'x' ++ ("2001:db8::1".toList ++ [newline])

/-! ## Byte arrays and their values -/

theorem value_lt (a : in6_addr) (h : ∀ x ∈ a, x < 256) : value a < 256 ^ a.length := by
  induction a with
  | nil => simp [value]
  | cons x xs ih =>
    have hx : x < 256 := h x (List.mem_cons_self _ _)
    have hxs := ih (fun y hy => h y (List.mem_cons_of_mem _ hy))
    simp only [value, List.length_cons, pow_succ]
    nlinarith

theorem value_set (a : in6_addr) (i v : Nat) (hi : i < a.length) :
    value (a.set i v) + a[i] * 256 ^ (a.length - 1 - i) =
      value a + v * 256 ^ (a.length - 1 - i) := by
  induction a generalizing i with
  | nil => simp at hi
  | cons x xs ih =>
    cases i with
    | zero => simp [value]; ring
    | succ j =>
      have hj : j < xs.length := by simpa using hi
      have := ih j hj
      simp only [List.set_cons_succ, value, List.length_cons, List.length_set,
        List.getElem_cons_succ]
      have e : xs.length + 1 - 1 - (j + 1) = xs.length - 1 - j := by omega
      rw [e]
      omega

theorem in6_wf_set (a : in6_addr) (i v : Nat) (h : in6_wf a) (hv : v < 256) :
    in6_wf (a.set i v) := by
  refine ⟨by simpa using h.1, fun x hx => ?_⟩
  rcases List.mem_or_eq_of_mem_set hx with h1 | h1
  · exact h.2 x h1
  · exact h1 ▸ hv

theorem encode_bytes_value (a : in6_addr) (h : ∀ x ∈ a, x < 256) (m : Nat) :
    encode_bytes a.length (value a + m * 256 ^ a.length) = a := by
  induction a generalizing m with
  | nil => simp [encode_bytes]
  | cons x xs ih =>
    have hx : x < 256 := h x (List.mem_cons_self _ _)
    have hxs : ∀ y ∈ xs, y < 256 := fun y hy => h y (List.mem_cons_of_mem _ hy)
    have hlt := value_lt xs hxs
    have hpos : 0 < 256 ^ xs.length := by positivity
    have e : x * 256 ^ xs.length + value xs + m * 256 ^ (xs.length + 1) =
        value xs + (x + m * 256) * 256 ^ xs.length := by ring
    simp only [value, List.length_cons, encode_bytes]
    rw [e, ih hxs (x + m * 256)]
    congr 1
    rw [Nat.add_mul_div_right _ _ hpos, Nat.div_eq_of_lt hlt]
    omega

theorem encode_value (a : in6_addr) (h : in6_wf a) : encode (value a) = a := by
  have := encode_bytes_value a h.2 0
  simpa [encode, h.1] using this

/-! ## The increment -/

theorem increment_byte_step (a : in6_addr) (h : in6_wf a) (i c : Nat) (hi : i < 16)
    (hc : c ≤ 1) :
    ∃ b a1, load a i = some b ∧ store a i ((b + c) &&& 0xff) = some a1 ∧ in6_wf a1 ∧
      value a1 + (if (b + c) >>> 8 ≠ 0 then 1 else 0) * 256 ^ (16 - i) =
        value a + c * 256 ^ (15 - i) := by
  have hlen : i < a.length := by rw [h.1]; exact hi
  have hb : a[i] < 256 := h.2 _ (List.getElem_mem _)
  have hand : (a[i] + c) &&& 0xff = (a[i] + c) % 256 :=
    Nat.and_pow_two_sub_one_eq_mod _ 8
  refine ⟨a[i], a.set i ((a[i] + c) % 256), ?_, ?_, ?_, ?_⟩
  · simp [load, List.getElem?_eq_getElem hlen]
  · simp [store, hlen, hand]
  · exact in6_wf_set a i _ h (Nat.mod_lt _ (by decide))
  · have hv := value_set a i ((a[i] + c) % 256) hlen
    rw [h.1] at hv
    have e1 : 16 - 1 - i = 15 - i := by omega
    have e2 : (256 : Nat) ^ (16 - i) = 256 * 256 ^ (15 - i) := by
      rw [← pow_succ']; congr 1; omega
    rw [e1] at hv
    rw [Nat.shiftRight_eq_div_pow, e2]
    generalize (256 : Nat) ^ (15 - i) = P at hv ⊢
    by_cases hlt : a[i] + c < 256
    · have hd : (a[i] + c) / 2 ^ 8 = 0 := Nat.div_eq_of_lt hlt
      simp only [Nat.mod_eq_of_lt hlt] at hv ⊢
      simp only [hd, ne_eq, not_true_eq_false, if_false]
      rw [add_mul] at hv
      omega
    · have heq : a[i] + c = 256 := by omega
      have hd : (a[i] + c) / 2 ^ 8 = 1 := by rw [heq]; decide
      have hm : (a[i] + c) % 256 = 0 := by rw [heq]
      simp only [hm] at hv ⊢
      simp only [hd, ne_eq, one_ne_zero, not_false_eq_true, if_true]
      have hai : a[i] = 255 := by omega
      have hc1 : c = 1 := by omega
      rw [hai] at hv
      rw [hc1]
      omega

theorem increment_carry_loop_value (n : Nat) :
    ∀ (c : Nat) (a : in6_addr), n ≤ 16 → c ≤ 1 → in6_wf a →
      ∃ a1, increment_carry_loop n c a = some a1 ∧ in6_wf a1 ∧
        value a1 = (value a + c * 256 ^ (16 - n)) % 256 ^ 16 := by
  induction n with
  | zero =>
    intro c a _ hc h
    refine ⟨a, rfl, h, ?_⟩
    have hlt := value_lt a h.2
    rw [h.1] at hlt
    have : c = 0 ∨ c = 1 := by omega
    rcases this with rfl | rfl
    · rw [Nat.zero_mul, Nat.add_zero, Nat.mod_eq_of_lt hlt]
    · rw [Nat.sub_zero, Nat.one_mul, Nat.add_mod_right, Nat.mod_eq_of_lt hlt]
  | succ i ih =>
    intro c a hn hc h
    obtain ⟨b, a1, hl, hs, hw, hv⟩ := increment_byte_step a h i c (by omega) hc
    have e : 16 - (i + 1) = 15 - i := by omega
    rw [e]
    by_cases hcar : (b + c) >>> 8 ≠ 0
    · obtain ⟨a2, h2, hw2, hv2⟩ := ih 1 a1 (by omega) (le_refl 1) hw
      refine ⟨a2, ?_, hw2, ?_⟩
      · simp [increment_carry_loop, hl, hs, hcar, h2]
      · rw [hv2, ← hv]; simp [hcar]
    · refine ⟨a1, ?_, hw, ?_⟩
      · simp only [ne_eq, not_not] at hcar
        simp [increment_carry_loop, hl, hs, hcar]
      · have hlt := value_lt a1 hw.2
        rw [hw.1] at hlt
        simp only [hcar, if_false, zero_mul, add_zero] at hv
        rw [← hv, Nat.mod_eq_of_lt hlt]

theorem increment_in6_addr_value (a : in6_addr) (h : in6_wf a) :
    ∃ a1, increment_in6_addr a = some a1 ∧ in6_wf a1 ∧
      value a1 = (value a + 1) % 256 ^ 16 := by
  obtain ⟨b, a1, hl, hs, hw, hv⟩ := increment_byte_step a h 15 1 (by decide) (le_refl 1)
  by_cases hcar : (b + 1) >>> 8 ≠ 0
  · obtain ⟨a2, h2, hw2, hv2⟩ := increment_carry_loop_value 15 1 a1 (by decide) (le_refl 1) hw
    refine ⟨a2, ?_, hw2, ?_⟩
    · simp [increment_in6_addr, hl, hs, hcar, h2]
    · rw [if_pos hcar] at hv
      simp only [Nat.reduceSub, pow_one, pow_zero, one_mul, mul_one] at hv hv2
      rw [hv2, hv]
  · obtain ⟨a2, h2, hw2, hv2⟩ := increment_carry_loop_value 15 0 a1 (by decide) (by decide) hw
    refine ⟨a2, ?_, hw2, ?_⟩
    · simp only [ne_eq, not_not] at hcar
      simp [increment_in6_addr, hl, hs, hcar, h2]
    · rw [if_neg hcar] at hv
      simp only [Nat.reduceSub, pow_one, pow_zero, zero_mul, mul_one, add_zero] at hv hv2
      rw [hv2, hv]

/-! ## The containment test at the wrap-around -/

theorem to_unsigned_idem (p : Int) : to_unsigned (to_unsigned p : Int) = to_unsigned p := by
  unfold to_unsigned; omega

theorem included_to_unsigned (b : in6_addr) (p : Int) (a : in6_addr) :
    is_addr_included_in_prefix ⟨b, p⟩ a =
      is_addr_included_in_prefix ⟨b, (to_unsigned p : Int)⟩ a := by
  simp only [ is_addr_included_in_prefix, to_unsigned_idem]

set_option maxRecDepth 100000 in
theorem included_wrap_small : ∀ q : Fin 128,
    is_addr_included_in_prefix ⟨List.replicate 16 255, (q.val : Int)⟩ (List.replicate 16 0)
      = some 0 := by
  decide

theorem included_wrap (p : Int) :
    is_addr_included_in_prefix ⟨List.replicate 16 255, p⟩ (List.replicate 16 0) = none ∨
    is_addr_included_in_prefix ⟨List.replicate 16 255, p⟩ (List.replicate 16 0) = some 0 := by
  rw [included_to_unsigned]
  by_cases hq : to_unsigned p < 128
  · right
    exact included_wrap_small ⟨to_unsigned p, hq⟩
  · left
    have h16 : ¬ to_unsigned (to_unsigned p : Int) / 8 < 16 := by
      rw [to_unsigned_idem]; omega
    have hl : load (List.replicate 16 255) (to_unsigned (to_unsigned p : Int) / 8) = none := by
      unfold load
      apply List.getElem?_eq_none
      simp only [List.length_replicate]
      omega
    simp only [ is_addr_included_in_prefix, hl, Option.bind_eq_bind, Option.none_bind]

/-! ## One call of the prefix source -/

theorem get_ipv6_cases (tp : in6_prefix) (dst : in6_addr) (rc : Nat) (tp1 : in6_prefix)
    (dst1 : in6_addr) (h : ipv6_target_prefix_get_ipv6 tp dst = some (rc, tp1, dst1)) :
    (rc = 1 ∧ tp1 = tp ∧ dst1 = dst) ∨
    (rc = 0 ∧ tp1 = ⟨dst1, tp.prefixlen⟩ ∧ increment_in6_addr tp.addr = some dst1 ∧
      ∃ r, is_addr_included_in_prefix tp dst1 = some r ∧ r ≠ 0) := by
  unfold ipv6_target_prefix_get_ipv6 at h
  cases hn : increment_in6_addr tp.addr with
  | none => simp [hn] at h
  | some next =>
    cases hi : is_addr_included_in_prefix tp next with
    | none => simp [hn, hi] at h
    | some r =>
      by_cases hr : r = 0
      · left
        simp [hn, hi, hr] at h
        obtain ⟨h1, h2, h3⟩ := h
        exact ⟨h1.symm, h2.symm, h3.symm⟩
      · right
        simp [hn, hi, hr] at h
        obtain ⟨h1, h2, h3⟩ := h
        subst h3
        exact ⟨h1.symm, h2.symm, rfl, r, hi, hr⟩

theorem get_ipv6_success (tp : in6_prefix) (dst : in6_addr) (tp1 : in6_prefix)
    (dst1 : in6_addr) (hw : in6_wf tp.addr)
    (h : ipv6_target_prefix_get_ipv6 tp dst = some (0, tp1, dst1)) :
    tp1 = ⟨dst1, tp.prefixlen⟩ ∧ in6_wf dst1 ∧ value dst1 = value tp.addr + 1 := by
  rcases get_ipv6_cases tp dst 0 tp1 dst1 h with ⟨h0, _⟩ | ⟨_, h1, h2, r, h3, h4⟩
  · exact absurd h0 (by decide)
  · obtain ⟨a1, ha1, hw1, hv1⟩ := increment_in6_addr_value tp.addr hw
    rw [h2] at ha1
    cases ha1
    refine ⟨h1, hw1, ?_⟩
    have hlt := value_lt tp.addr hw.2
    rw [hw.1] at hlt
    by_cases hmax : value tp.addr + 1 < 256 ^ 16
    · rw [hv1, Nat.mod_eq_of_lt hmax]
    · exfalso
      have hval : value tp.addr = 256 ^ 16 - 1 := by omega
      have hones : tp.addr = List.replicate 16 255 := by
        rw [← encode_value tp.addr hw, hval]; decide
      have hz : dst1 = List.replicate 16 0 := by
        have e : value tp.addr + 1 = 256 ^ 16 := by omega
        rw [← encode_value dst1 hw1, hv1, e, Nat.mod_self]; decide
      have hinc := included_wrap tp.prefixlen
      have htp : tp = ⟨List.replicate 16 255, tp.prefixlen⟩ := by
        cases tp; simp at hones; simp [hones]
      rw [htp, hz] at h3
      rcases hinc with hi | hi
      · rw [hi] at h3; cases h3
      · rw [hi] at h3; cases h3; exact h4 rfl

/-! ## Runs of the prefix source -/

theorem returned_addrs_gt (n : Nat) :
    ∀ (tp : in6_prefix) (dst : in6_addr), in6_wf tp.addr →
      ∀ x ∈ returned_addrs n tp dst, value tp.addr < value x := by
  induction n with
  | zero => intro tp dst _ x hx; simp [returned_addrs] at hx
  | succ n ih =>
    intro tp dst hw x hx
    unfold returned_addrs at hx
    cases hg : ipv6_target_prefix_get_ipv6 tp dst with
    | none => simp [hg] at hx
    | some r =>
      obtain ⟨rc, tp1, dst1⟩ := r
      simp only [hg] at hx
      rcases get_ipv6_cases tp dst rc tp1 dst1 hg with ⟨h0, h1, _⟩ | ⟨h0, _⟩
      · subst h1
        have hrc : ¬ rc = 0 := by omega
        rw [if_neg hrc] at hx
        exact ih tp1 dst1 hw x hx
      · subst h0
        obtain ⟨h1, hw1, hv1⟩ := get_ipv6_success tp dst tp1 dst1 hw hg
        rw [if_pos rfl] at hx
        rcases List.mem_cons.mp hx with hx | hx
        · rw [hx, hv1]; exact Nat.lt_succ_self _
        · have hw2 : in6_wf tp1.addr := by rw [h1]; exact hw1
          have := ih tp1 dst1 hw2 x hx
          rw [h1] at this
          simp only at this
          omega

theorem returned_addrs_pairwise (n : Nat) :
    ∀ (tp : in6_prefix) (dst : in6_addr), in6_wf tp.addr →
      List.Pairwise (fun x y => value x < value y) (returned_addrs n tp dst) := by
  induction n with
  | zero => intro tp dst _; simp [returned_addrs]
  | succ n ih =>
    intro tp dst hw
    unfold returned_addrs
    cases hg : ipv6_target_prefix_get_ipv6 tp dst with
    | none => simp
    | some r =>
      obtain ⟨rc, tp1, dst1⟩ := r
      simp only
      rcases get_ipv6_cases tp dst rc tp1 dst1 hg with ⟨h0, h1, _⟩ | ⟨h0, _⟩
      · subst h1
        have hrc : ¬ rc = 0 := by omega
        rw [if_neg hrc]
        exact ih tp1 dst1 hw
      · subst h0
        obtain ⟨h1, hw1, _⟩ := get_ipv6_success tp dst tp1 dst1 hw hg
        have hw2 : in6_wf tp1.addr := by rw [h1]; exact hw1
        rw [if_pos rfl]
        refine List.pairwise_cons.mpr ⟨fun y hy => ?_, ih tp1 dst1 hw2⟩
        have := returned_addrs_gt n tp1 dst1 hw2 y hy
        rw [h1] at this
        exact this

theorem returned_addrs_head (n : Nat) :
    ∀ (tp : in6_prefix) (dst : in6_addr), in6_wf tp.addr →
      ∀ x rest, returned_addrs n tp dst = x :: rest →
        in6_wf x ∧ value x = value tp.addr + 1 := by
  induction n with
  | zero => intro tp dst _ x rest hx; simp [returned_addrs] at hx
  | succ n ih =>
    intro tp dst hw x rest hx
    unfold returned_addrs at hx
    cases hg : ipv6_target_prefix_get_ipv6 tp dst with
    | none => simp [hg] at hx
    | some r =>
      obtain ⟨rc, tp1, dst1⟩ := r
      simp only [hg] at hx
      rcases get_ipv6_cases tp dst rc tp1 dst1 hg with ⟨h0, h1, _⟩ | ⟨h0, _⟩
      · subst h1
        have hrc : ¬ rc = 0 := by omega
        rw [if_neg hrc] at hx
        exact ih tp1 dst1 hw x rest hx
      · subst h0
        obtain ⟨_, hw1, hv1⟩ := get_ipv6_success tp dst tp1 dst1 hw hg
        rw [if_pos rfl] at hx
        cases hx
        exact ⟨hw1, hv1⟩

theorem prefix_calls_exhausted (n : Nat) (tp : in6_prefix) (dst : in6_addr) (rc : Nat)
    (h : ipv6_target_prefix_get_ipv6 tp dst = some (rc, tp, dst)) :
    prefix_calls n tp dst = List.replicate n (rc, dst) := by
  induction n with
  | zero => rfl
  | succ n ih => simp [prefix_calls, h, ih, List.replicate_succ]

theorem returned_addrs_exhausted (n : Nat) (tp : in6_prefix) (dst : in6_addr)
    (h : ipv6_target_prefix_get_ipv6 tp dst = some (1, tp, dst)) :
    returned_addrs n tp dst = [] := by
  induction n with
  | zero => rfl
  | succ n ih => simp [returned_addrs, h, ih]

/-! ## The claims -/

/-- C1, evaluated on the code: from base `2001:db8::` with `prefixlen` 126 the
first four calls of `ipv6_target_prefix_get_ipv6` all return 0, and the fourth
hands out `2001:db8::4` instead of signalling exhaustion. -/
theorem c1_fourth_call_succeeds :
    prefix_calls 4 ⟨doc_addr 0 0, 126⟩ (List.replicate 16 0) =
      [(0, doc_addr 0 1), (0, doc_addr 0 2), (0, doc_addr 0 3), (0, doc_addr 0 4)] := by
  decide

/-- C2, evaluated on the code: in the run started from `2001:db8::/126` the
address `2001:db8::4` is returned, although its first 126 bits are not those of
the base. -/
theorem c2_returned_outside_prefix :
    doc_addr 0 4 ∈ returned_addrs 4 ⟨doc_addr 0 0, 126⟩ (List.replicate 16 0) ∧
      ¬ in_prefix (doc_addr 0 0) 126 (doc_addr 0 4) := by
  decide

/-- C3, evaluated on the code: from base `::1ff` with `prefixlen` 112 the first
call signals exhaustion, although `::200`, the base plus one, lies inside
`::1ff/112`. -/
theorem c3_first_call_exhausts_early :
    ipv6_target_prefix_get_ipv6 ⟨low_addr 1 255, 112⟩ (List.replicate 16 0) =
        some (1, ⟨low_addr 1 255, 112⟩, List.replicate 16 0) ∧
      value (low_addr 2 0) = value (low_addr 1 255) + 1 ∧
      in_prefix (low_addr 1 255) 112 (low_addr 2 0) := by
  decide

/-- C4: in a run of `ipv6_target_prefix_get_ipv6` started from any well-formed
base and any `prefixlen`, the addresses handed out by the successful calls are
strictly increasing as unsigned 128-bit big-endian integers, whatever the number
of calls. -/
theorem returned_strictly_increasing (b : in6_addr) (p : Int) (dst : in6_addr) (n : Nat)
    (hb : in6_wf b) :
    List.Pairwise (fun x y => value x < value y) (returned_addrs n ⟨b, p⟩ dst) :=
  returned_addrs_pairwise n ⟨b, p⟩ dst hb

/-- The three addresses returned from `2001:db8::/126` by the first three calls are increasing. -/
theorem returned_strictly_increasing_witness :
    in6_wf (doc_addr 0 0) ∧
      returned_addrs 3 ⟨doc_addr 0 0, 126⟩ [] = [doc_addr 0 1, doc_addr 0 2, doc_addr 0 3] ∧
      List.Pairwise (fun x y => value x < value y)
        (returned_addrs 3 ⟨doc_addr 0 0, 126⟩ []) :=
  ⟨by decide, by decide, returned_strictly_increasing (doc_addr 0 0) 126 [] 3 (by decide)⟩

/-- C5: on every 16-byte address `increment_in6_addr` stays inside the array
and leaves the big-endian 16-byte encoding of `(value a + 1) mod 2^128`; the
all-`0xff` address becomes the all-zero address. -/
theorem increment_in6_addr_correct (a : in6_addr) (ha : in6_wf a) :
    increment_in6_addr a = some (encode ((value a + 1) % 2 ^ 128)) ∧
      increment_in6_addr (List.replicate 16 255) = some (List.replicate 16 0) := by
  obtain ⟨a1, h1, hw1, hv1⟩ := increment_in6_addr_value a ha
  refine ⟨?_, by decide⟩
  have e : (2 : Nat) ^ 128 = 256 ^ 16 := by norm_num
  rw [h1, e, ← hv1, encode_value a1 hw1]

/-- Incrementing `2001:db8::ff` carries into byte 14 and gives `2001:db8::100`. -/
theorem increment_in6_addr_correct_witness :
    in6_wf (doc_addr 0 255) ∧
      increment_in6_addr (doc_addr 0 255) = some (doc_addr 1 0) ∧
      (increment_in6_addr (doc_addr 0 255) =
          some (encode ((value (doc_addr 0 255) + 1) % 2 ^ 128)) ∧
        increment_in6_addr (List.replicate 16 255) = some (List.replicate 16 0)) :=
  ⟨by decide, by decide, increment_in6_addr_correct (doc_addr 0 255) (by decide)⟩

/-- C6: when `ipv6_target_prefix_get_ipv6` returns non-zero, the stored record
(cursor address and `prefixlen`) and the contents of `*dst` are what they were
before the call. -/
theorem exhaustion_leaves_state (tp : in6_prefix) (dst : in6_addr) (rc : Nat)
    (tp1 : in6_prefix) (dst1 : in6_addr)
    (h : ipv6_target_prefix_get_ipv6 tp dst = some (rc, tp1, dst1)) (hrc : rc ≠ 0) :
    tp1 = tp ∧ dst1 = dst := by
  rcases get_ipv6_cases tp dst rc tp1 dst1 h with ⟨_, h1, h2⟩ | ⟨h0, _⟩
  · exact ⟨h1, h2⟩
  · exact absurd h0 hrc

/-- The call on cursor `2001:db8::1ff` returns 1 and changes neither the record nor `*dst`. -/
theorem exhaustion_leaves_state_witness :
    ipv6_target_prefix_get_ipv6 ⟨doc_addr 1 255, 126⟩ (doc_addr 0 7) =
        some (1, ⟨doc_addr 1 255, 126⟩, doc_addr 0 7) ∧
      ((⟨doc_addr 1 255, 126⟩ : in6_prefix) = ⟨doc_addr 1 255, 126⟩ ∧
        doc_addr 0 7 = doc_addr 0 7) :=
  ⟨by decide,
    exhaustion_leaves_state ⟨doc_addr 1 255, 126⟩ (doc_addr 0 7) 1 ⟨doc_addr 1 255, 126⟩
      (doc_addr 0 7) (by decide) (by decide)⟩

/-- C7: once a call of `ipv6_target_prefix_get_ipv6` has returned non-zero,
every later call on the record it left returns 1, leaves `*dst` as it was and
hands out no address. -/
theorem exhaustion_is_terminal (tp : in6_prefix) (dst : in6_addr) (rc : Nat)
    (tp1 : in6_prefix) (dst1 : in6_addr)
    (h : ipv6_target_prefix_get_ipv6 tp dst = some (rc, tp1, dst1)) (hrc : rc ≠ 0)
    (n : Nat) :
    prefix_calls n tp1 dst1 = List.replicate n (1, dst1) ∧
      returned_addrs n tp1 dst1 = [] := by
  rcases get_ipv6_cases tp dst rc tp1 dst1 h with ⟨h0, h1, h2⟩ | ⟨h0, _⟩
  · subst h0 h1 h2
    exact ⟨prefix_calls_exhausted n tp1 dst1 1 h, returned_addrs_exhausted n tp1 dst1 h⟩
  · exact absurd h0 hrc

/-- After the call on cursor `2001:db8::1ff` has returned 1, five more calls return 1. -/
theorem exhaustion_is_terminal_witness :
    ipv6_target_prefix_get_ipv6 ⟨doc_addr 1 255, 126⟩ (doc_addr 0 7) =
        some (1, ⟨doc_addr 1 255, 126⟩, doc_addr 0 7) ∧
      (prefix_calls 5 ⟨doc_addr 1 255, 126⟩ (doc_addr 0 7) =
          List.replicate 5 (1, doc_addr 0 7) ∧
        returned_addrs 5 ⟨doc_addr 1 255, 126⟩ (doc_addr 0 7) = []) :=
  ⟨by decide,
    exhaustion_is_terminal ⟨doc_addr 1 255, 126⟩ (doc_addr 0 7) 1 ⟨doc_addr 1 255, 126⟩
      (doc_addr 0 7) (by decide) (by decide) 5⟩

/-- C8: in a run of `ipv6_target_prefix_get_ipv6` started from a well-formed
base `b` and any `prefixlen`, the first address handed out, if there is one, is
the encoding of `value b + 1`, and `b` itself is never handed out. -/
theorem first_returned_is_successor (b : in6_addr) (p : Int) (dst : in6_addr) (n : Nat)
    (hb : in6_wf b) :
    (∀ x rest, returned_addrs n ⟨b, p⟩ dst = x :: rest → x = encode (value b + 1)) ∧
      b ∉ returned_addrs n ⟨b, p⟩ dst := by
  constructor
  · intro x rest hx
    obtain ⟨hw, hv⟩ := returned_addrs_head n ⟨b, p⟩ dst hb x rest hx
    rw [← encode_value x hw, hv]
  · intro hmem
    exact Nat.lt_irrefl _ (returned_addrs_gt n ⟨b, p⟩ dst hb b hmem)

/-- The first address returned from `2001:db8::/126` is `2001:db8::1`. -/
theorem first_returned_is_successor_witness :
    in6_wf (doc_addr 0 0) ∧
      returned_addrs 2 ⟨doc_addr 0 0, 126⟩ [] = [doc_addr 0 1, doc_addr 0 2] ∧
      encode (value (doc_addr 0 0) + 1) = doc_addr 0 1 ∧
      ((∀ x rest, returned_addrs 2 ⟨doc_addr 0 0, 126⟩ [] = x :: rest →
          x = encode (value (doc_addr 0 0) + 1)) ∧
        doc_addr 0 0 ∉ returned_addrs 2 ⟨doc_addr 0 0, 126⟩ []) :=
  ⟨by decide, by decide, by decide,
    first_returned_is_successor (doc_addr 0 0) 126 [] 2 (by decide)⟩

/-- C9, evaluated on the code: `is_addr_included_in_prefix` answers 1 for
`2001:db8::4` against `2001:db8::/126`, whose first 126 bits differ, and answers
0 for `::200` against `::1ff/112`, whose first 112 bits agree. -/
theorem c9_containment_differs_from_prefix_match :
    ( is_addr_included_in_prefix ⟨doc_addr 0 0, 126⟩ (doc_addr 0 4) = some 1 ∧
        ¬ in_prefix (doc_addr 0 0) 126 (doc_addr 0 4)) ∧
      ( is_addr_included_in_prefix ⟨low_addr 1 255, 112⟩ (low_addr 2 0) = some 0 ∧
        in_prefix (low_addr 1 255) 112 (low_addr 2 0)) := by
  decide

/-- C10, evaluated on the code: the range check of `ipv6_target_prefix_init`
rejects the lengths 0, 64 and 128, which lie in [0,128], and accepts and stores
129, which does not. -/
theorem c10_range_check_rejects_valid_lengths :
    ipv6_target_prefix_init_check (doc_addr 0 0) 0 = (1, none) ∧
      ipv6_target_prefix_init_check (doc_addr 0 0) 64 = (1, none) ∧
      ipv6_target_prefix_init_check (doc_addr 0 0) 128 = (1, none) ∧
      ipv6_target_prefix_init_check (doc_addr 0 0) 129 =
        (0, some ⟨doc_addr 0 0, 129⟩) := by
  decide

/-! ## The mask and the comparison of the containment test -/

theorem included_eq_mask (pfx : in6_prefix) (a : in6_addr) :
    is_addr_included_in_prefix pfx a =
      ( prefix_mask pfx).bind (fun m => mask_compare_loop 16 0 m a) := by
  unfold is_addr_included_in_prefix prefix_mask
  simp only [Option.bind_eq_bind, Option.bind_assoc]

theorem store_some (m : in6_addr) (i v : Nat) (hi : i < m.length) :
    store m i v = some (m.set i (v % 256)) := by
  simp [store, hi]

theorem mask_clear_loop_some (fuel : Nat) :
    ∀ (i : Nat) (m : in6_addr), m.length = 16 → 15 - i < fuel →
      ∃ r, mask_clear_loop fuel i m = some r ∧ r.length = 16 := by
  induction fuel with
  | zero => intro i m _ h; omega
  | succ fuel ih =>
    intro i m hm h
    by_cases hi : i < 15
    · obtain ⟨r, hr, hl⟩ := ih (i + 1) (m.set i (0 % 256)) (by simpa using hm) (by omega)
      refine ⟨r, ?_, hl⟩
      simp only [mask_clear_loop, hi, if_true, store_some m i 0 (by omega),
        Option.bind_eq_bind, Option.some_bind, hr]
    · exact ⟨m, by simp [mask_clear_loop, hi], hm⟩

theorem mask_compare_loop_some (fuel : Nat) :
    ∀ (i : Nat) (m a : in6_addr), m.length = 16 → a.length = 16 → 15 - i < fuel →
      ∃ r, mask_compare_loop fuel i m a = some r := by
  induction fuel with
  | zero => intro i m a _ _ h; omega
  | succ fuel ih =>
    intro i m a hm ha h
    by_cases hi : i < 15
    · obtain ⟨r, hr⟩ := ih (i + 1) m a hm ha (by omega)
      have h1 : load m i = some m[i] := by
        unfold load; exact List.getElem?_eq_getElem (by omega)
      have h2 : load a i = some a[i] := by
        unfold load; exact List.getElem?_eq_getElem (by omega)
      by_cases hne : m[i] ≠ (m[i] &&& a[i]) % 256
      · exact ⟨0, by simp [mask_compare_loop, hi, h1, h2, hne]⟩
      · refine ⟨r, ?_⟩
        simp only [ne_eq, not_not] at hne
        simp only [mask_compare_loop, hi, if_true, h1, h2, Option.bind_eq_bind,
          Option.some_bind, ne_eq, ← hne, not_true_eq_false, if_false, hr]
    · exact ⟨1, by simp [mask_compare_loop, hi]⟩

theorem to_unsigned_small (p : Int) (h0 : 0 ≤ p) (h1 : p ≤ 128) :
    (to_unsigned p : Int) = p := by
  unfold to_unsigned; omega

theorem prefix_mask_some (b : in6_addr) (p : Int) (hb : b.length = 16) (h0 : 0 ≤ p)
    (h1 : p ≤ 127) : ∃ m, prefix_mask ⟨b, p⟩ = some m ∧ m.length = 16 := by
  have hq : to_unsigned p / 8 < 16 := by
    have := to_unsigned_small p h0 (by omega); omega
  have hl : load b (to_unsigned p / 8) = some b[to_unsigned p / 8] := by
    unfold load; exact List.getElem?_eq_getElem (by omega)
  obtain ⟨r, hr, hlen⟩ := mask_clear_loop_some 16 (to_unsigned p / 8 + 1)
    (b.set (to_unsigned p / 8)
      ((b[to_unsigned p / 8] &&& (0xff <<< (to_unsigned p % 8))) % 256))
    (by simpa using hb) (by omega)
  refine ⟨r, ?_, hlen⟩
  simp only [prefix_mask, hl, Option.bind_eq_bind, Option.some_bind,
    store_some b (to_unsigned p / 8) _ (by omega), hr]

theorem included_some (b a : in6_addr) (p : Int) (hb : b.length = 16) (ha : a.length = 16)
    (h0 : 0 ≤ p) (h1 : p ≤ 127) : ∃ r, is_addr_included_in_prefix ⟨b, p⟩ a = some r := by
  obtain ⟨m, hm, hlen⟩ := prefix_mask_some b p hb h0 h1
  obtain ⟨r, hr⟩ := mask_compare_loop_some 16 0 m a hlen ha (by omega)
  exact ⟨r, by rw [included_eq_mask, hm]; exact hr⟩

theorem included_none_128 (b a : in6_addr) (hb : b.length = 16) :
    is_addr_included_in_prefix ⟨b, 128⟩ a = none := by
  have hl : load b (to_unsigned 128 / 8) = none := by
    unfold load
    apply List.getElem?_eq_none
    rw [hb]; decide
  simp only [ is_addr_included_in_prefix, hl, Option.bind_eq_bind, Option.none_bind]

/-! ## Independence of the last byte -/

theorem store_agree (m m1 : in6_addr) (k v v1 : Nat) (hl : m.length = m1.length)
    (ht : m.take 15 = m1.take 15) (hv : k < 15 → v % 256 = v1 % 256) :
    (store m k v = none ∧ store m1 k v1 = none) ∨
    ∃ r r1, store m k v = some r ∧ store m1 k v1 = some r1 ∧ r.length = r1.length ∧
      r.take 15 = r1.take 15 := by
  by_cases hk : k < m.length
  · right
    refine ⟨m.set k (v % 256), m1.set k (v1 % 256), store_some m k v hk,
      store_some m1 k v1 (by omega), by simp [hl], ?_⟩
    rw [List.set_take, List.set_take, ht]
    by_cases h15 : k < 15
    · rw [hv h15]
    · rw [List.set_eq_of_length_le (by simp; omega), List.set_eq_of_length_le (by simp; omega)]
  · left
    have hk1 : ¬ k < m1.length := by omega
    exact ⟨by simp [store, hk], by simp [store, hk1]⟩

theorem mask_clear_loop_agree (fuel : Nat) :
    ∀ (i : Nat) (m m1 : in6_addr), m.length = m1.length → m.take 15 = m1.take 15 →
      (mask_clear_loop fuel i m = none ∧ mask_clear_loop fuel i m1 = none) ∨
      ∃ r r1, mask_clear_loop fuel i m = some r ∧ mask_clear_loop fuel i m1 = some r1 ∧
        r.length = r1.length ∧ r.take 15 = r1.take 15 := by
  induction fuel with
  | zero => intro i m m1 _ _; left; exact ⟨rfl, rfl⟩
  | succ fuel ih =>
    intro i m m1 hl ht
    by_cases hi : i < 15
    · rcases store_agree m m1 i 0 0 hl ht (fun _ => rfl) with ⟨h1, h2⟩ | ⟨r, r1, h1, h2, h3, h4⟩
      · left
        simp [mask_clear_loop, hi, h1, h2]
      · have := ih (i + 1) r r1 h3 h4
        simpa [mask_clear_loop, hi, h1, h2] using this
    · right
      exact ⟨m, m1, by simp [mask_clear_loop, hi], by simp [mask_clear_loop, hi], hl, ht⟩

theorem load_take (m : in6_addr) (i : Nat) (hi : i < 15) : load m i = load (m.take 15) i := by
  unfold load
  exact (List.getElem?_take_of_lt hi).symm

theorem mask_compare_loop_agree (fuel : Nat) :
    ∀ (i : Nat) (m m1 a a1 : in6_addr), m.take 15 = m1.take 15 → a.take 15 = a1.take 15 →
      mask_compare_loop fuel i m a = mask_compare_loop fuel i m1 a1 := by
  induction fuel with
  | zero => intro i m m1 a a1 _ _; rfl
  | succ fuel ih =>
    intro i m m1 a a1 hm ha
    by_cases hi : i < 15
    · simp only [mask_compare_loop, hi, if_true, load_take m i hi, load_take m1 i hi,
        load_take a i hi, load_take a1 i hi, hm, ha, ih (i + 1) m m1 a a1 hm ha]
    · simp [mask_compare_loop, hi]

theorem prefix_mask_agree (b b1 : in6_addr) (p : Int) (hl : b.length = b1.length)
    (ht : b.take 15 = b1.take 15) :
    ( prefix_mask ⟨b, p⟩ = none ∧ prefix_mask ⟨b1, p⟩ = none) ∨
    ∃ r r1, prefix_mask ⟨b, p⟩ = some r ∧ prefix_mask ⟨b1, p⟩ = some r1 ∧
      r.take 15 = r1.take 15 := by
  by_cases hk : to_unsigned p / 8 < b.length
  · have h1 : load b (to_unsigned p / 8) = some b[to_unsigned p / 8] := by
      unfold load; exact List.getElem?_eq_getElem hk
    have h2 : load b1 (to_unsigned p / 8) = some b1[to_unsigned p / 8] := by
      unfold load; exact List.getElem?_eq_getElem (by omega)
    have hv : to_unsigned p / 8 < 15 →
        (b[to_unsigned p / 8] &&& (0xff <<< (to_unsigned p % 8))) % 256 =
          (b1[to_unsigned p / 8] &&& (0xff <<< (to_unsigned p % 8))) % 256 := by
      intro h15
      have e : b[to_unsigned p / 8] = b1[to_unsigned p / 8] := by
        have e1 := load_take b _ h15
        have e2 := load_take b1 _ h15
        rw [ht, ← e2, h1, h2] at e1
        exact Option.some.inj e1
      rw [e]
    rcases store_agree b b1 (to_unsigned p / 8) _ _ hl ht hv with
      ⟨h3, h4⟩ | ⟨r, r1, h3, h4, h5, h6⟩
    · left
      simp [prefix_mask, h1, h2, h3, h4]
    · rcases mask_clear_loop_agree 16 (to_unsigned p / 8 + 1) r r1 h5 h6 with
        ⟨h7, h8⟩ | ⟨t, t1, h7, h8, _, h10⟩
      · left
        simp [prefix_mask, h1, h2, h3, h4, h7, h8]
      · right
        exact ⟨t, t1, by simp [prefix_mask, h1, h2, h3, h4, h7],
          by simp [prefix_mask, h1, h2, h3, h4, h8], h10⟩
  · left
    have h1 : load b (to_unsigned p / 8) = none := by
      unfold load; exact List.getElem?_eq_none (by omega)
    have h2 : load b1 (to_unsigned p / 8) = none := by
      unfold load; exact List.getElem?_eq_none (by omega)
    simp [prefix_mask, h1, h2]

/-! ## A call on a well-formed record is defined -/

theorem get_ipv6_some (tp : in6_prefix) (dst : in6_addr) (hw : in6_wf tp.addr)
    (h0 : 0 ≤ tp.prefixlen) (h1 : tp.prefixlen ≤ 127) :
    ∃ rc tp1 dst1, ipv6_target_prefix_get_ipv6 tp dst = some (rc, tp1, dst1) := by
  obtain ⟨next, hn, hwn, _⟩ := increment_in6_addr_value tp.addr hw
  obtain ⟨r, hr⟩ := included_some tp.addr next tp.prefixlen hw.1 hwn.1 h0 h1
  by_cases h : r = 0
  · exact ⟨1, tp, dst, by simp [ipv6_target_prefix_get_ipv6, hn, hr, h]⟩
  · exact ⟨0, ⟨next, tp.prefixlen⟩, next, by simp [ipv6_target_prefix_get_ipv6, hn, hr, h]⟩

/-! ## The claims on the containment mask -/

/-- C15, evaluated on the code: for the all-`0xff` base and `prefixlen` 126 the
mask byte at index 15 is `0xc0`, its top 2 bits, not its top 6 bits `0xfc`; for
`prefixlen` 8 the mask byte at index 1 is kept whole instead of cleared, and the
byte at index 15 is not zero. -/
theorem c15_mask_keeps_wrong_bits :
    ( prefix_mask ⟨List.replicate 16 255, 126⟩ =
        some [255, 255, 255, 255, 255, 255, 255, 255, 255, 255, 255, 255, 255, 255, 255, 192] ∧
      keep_top_bits (126 % 8) 255 = 252) ∧
    ( prefix_mask ⟨List.replicate 16 255, 8⟩ =
        some [255, 255, 0, 0, 0, 0, 0, 0, 0, 0, 0, 0, 0, 0, 0, 255] ∧
      keep_top_bits (8 % 8) 255 = 0) := by
  decide

set_option maxRecDepth 1000000 in
/-- C16, evaluated on the code: in the run from base `::ff` with `prefixlen` 120
the first call returns `::100` and stores it in the record, so the containment
test of the second call is made on the record {`::100`, 120}; that test refuses
`::2`, which lies in `::ff/120` and which the test on the record given at
initialisation admits.  Call 257 of the run is made on cursor `::1ff` and returns
1, although the test on the record given at initialisation admits its candidate
`::200`. -/
theorem c16_boundary_moves_with_cursor :
    (ipv6_target_prefix_get_ipv6 ⟨low_addr 0 255, 120⟩ (List.replicate 16 0) =
        some (0, ⟨low_addr 1 0, 120⟩, low_addr 1 0) ∧
      in_prefix (low_addr 0 255) 120 (low_addr 0 2) ∧
      is_addr_included_in_prefix ⟨low_addr 0 255, 120⟩ (low_addr 0 2) = some 1 ∧
      is_addr_included_in_prefix ⟨low_addr 1 0, 120⟩ (low_addr 0 2) = some 0) ∧
    ((prefix_calls 256 ⟨low_addr 0 255, 120⟩ (List.replicate 16 0)).getLast? =
        some (0, low_addr 1 255) ∧
      (prefix_calls 257 ⟨low_addr 0 255, 120⟩ (List.replicate 16 0)).getLast? =
        some (1, low_addr 1 255) ∧
      increment_in6_addr (low_addr 1 255) = some (low_addr 2 0) ∧
      is_addr_included_in_prefix ⟨low_addr 0 255, 120⟩ (low_addr 2 0) = some 1 ∧
      is_addr_included_in_prefix ⟨low_addr 1 255, 120⟩ (low_addr 2 0) = some 0) := by
  decide!

/-- C17: for `prefixlen` in [0,127], two well-formed bases that agree on bytes
0..14 and two addresses that agree on bytes 0..14, the first of them well-formed,
get the same answer from `is_addr_included_in_prefix`, and that answer is a
defined one. -/
theorem included_ignores_last_byte (b b1 a a1 : in6_addr) (p : Int) (hb : in6_wf b)
    (hb1 : in6_wf b1) (ha : in6_wf a) (h0 : 0 ≤ p) (h1 : p ≤ 127)
    (hbt : b.take 15 = b1.take 15) (hat : a.take 15 = a1.take 15) :
    is_addr_included_in_prefix ⟨b, p⟩ a = is_addr_included_in_prefix ⟨b1, p⟩ a1 ∧
      ∃ r, is_addr_included_in_prefix ⟨b, p⟩ a = some r := by
  refine ⟨?_, included_some b a p hb.1 ha.1 h0 h1⟩
  rw [included_eq_mask, included_eq_mask]
  rcases prefix_mask_agree b b1 p (by rw [hb.1, hb1.1]) hbt with
    ⟨h2, h3⟩ | ⟨r, r1, h2, h3, h4⟩
  · rw [h2, h3, Option.none_bind, Option.none_bind]
  · rw [h2, h3, Option.some_bind, Option.some_bind]
    exact mask_compare_loop_agree 16 0 r r1 a a1 h4 hat

/-- Bases `2001:db8::` and `2001:db8::9`, addresses `2001:db8::4` and
`2001:db8::c8`, `prefixlen` 126: the answer is 1 in both cases. -/
theorem included_ignores_last_byte_witness :
    is_addr_included_in_prefix ⟨doc_addr 0 0, 126⟩ (doc_addr 0 4) = some 1 ∧
      ( is_addr_included_in_prefix ⟨doc_addr 0 0, 126⟩ (doc_addr 0 4) =
          is_addr_included_in_prefix ⟨doc_addr 0 9, 126⟩ (doc_addr 0 200) ∧
        ∃ r, is_addr_included_in_prefix ⟨doc_addr 0 0, 126⟩ (doc_addr 0 4) = some r) :=
  ⟨by decide,
    included_ignores_last_byte (doc_addr 0 0) (doc_addr 0 9) (doc_addr 0 4) (doc_addr 0 200)
      126 (by decide) (by decide) (by decide) (by decide) (by decide) (by decide)
      (by decide)⟩

/-- C19: for a `prefixlen` in [0,128] and 16-byte base and address, every array
access of `is_addr_included_in_prefix` is inside the array exactly when
`prefixlen` is at most 127; at 128 the masking step addresses index 16, which is
outside. -/
theorem included_in_bounds_iff (b a : in6_addr) (p : Int) (hb : in6_wf b) (ha : in6_wf a)
    (h0 : 0 ≤ p) (h1 : p ≤ 128) :
    (( is_addr_included_in_prefix ⟨b, p⟩ a).isSome = true ↔ p ≤ 127) ∧
      (p = 128 → to_unsigned p / 8 = 16 ∧ load b (to_unsigned p / 8) = none) := by
  constructor
  · constructor
    · intro hs
      by_contra hp
      have e : p = 128 := by omega
      rw [e, included_none_128 b a hb.1] at hs
      cases hs
    · intro hp
      obtain ⟨r, hr⟩ := included_some b a p hb.1 ha.1 h0 hp
      rw [hr]; rfl
  · intro e
    subst e
    refine ⟨by decide, ?_⟩
    unfold load
    apply List.getElem?_eq_none
    rw [hb.1]; decide

/-- At `prefixlen` 126 the test of `2001:db8::4` against `2001:db8::` is defined;
at 128 it is not. -/
theorem included_in_bounds_iff_witness :
    (( is_addr_included_in_prefix ⟨doc_addr 0 0, 126⟩ (doc_addr 0 4)).isSome = true ↔
        (126 : Int) ≤ 127) ∧
      ((126 : Int) = 128 →
        to_unsigned 126 / 8 = 16 ∧ load (doc_addr 0 0) (to_unsigned 126 / 8) = none) :=
  included_in_bounds_iff (doc_addr 0 0) (doc_addr 0 4) 126 (by decide) (by decide)
    (by decide) (by decide)

/-- C20: for `prefixlen` in [0,127], a call of `ipv6_target_prefix_get_ipv6` on
the all-`0xff` cursor returns 1 and leaves the record and `*dst` unchanged: the
wrapped all-zero address is not handed out. -/
theorem all_ones_cursor_exhausts (p : Int) (dst : in6_addr) (h0 : 0 ≤ p) (h1 : p ≤ 127) :
    ipv6_target_prefix_get_ipv6 ⟨List.replicate 16 255, p⟩ dst =
      some (1, ⟨List.replicate 16 255, p⟩, dst) := by
  have hinc : increment_in6_addr (List.replicate 16 255) = some (List.replicate 16 0) := by
    decide
  have hq : to_unsigned p < 128 := by
    have := to_unsigned_small p h0 (by omega); omega
  have hi := included_wrap_small ⟨to_unsigned p, hq⟩
  rw [← included_to_unsigned] at hi
  simp only [ipv6_target_prefix_get_ipv6, hinc, hi, Option.bind_eq_bind, Option.some_bind,
    if_true]

/-- The call on the all-`0xff` cursor with `prefixlen` 64. -/
theorem all_ones_cursor_exhausts_witness :
    ipv6_target_prefix_get_ipv6 ⟨List.replicate 16 255, 64⟩ (doc_addr 0 7) =
      some (1, ⟨List.replicate 16 255, 64⟩, doc_addr 0 7) :=
  all_ones_cursor_exhausts 64 (doc_addr 0 7) (by decide) (by decide)

/-! ## The initialisation of the prefix source -/

theorem dropWhile_head (q : Char → Bool) (l : List Char) (c : Char) (r : List Char)
    (h : l.dropWhile q = c :: r) : q c = false := by
  induction l with
  | nil => simp at h
  | cons x xs ih =>
    rw [List.dropWhile_cons] at h
    by_cases hx : q x = true
    · rw [if_pos hx] at h; exact ih h
    · rw [if_neg hx] at h
      cases h
      simpa using hx

theorem prefix_sscanf_ret (s : List Char) :
    (prefix_sscanf s).ret = 1 ∨ (prefix_sscanf s).ret = -1 := by
  by_cases h : s.dropWhile is_space = []
  · right
    simp [prefix_sscanf, h]
  · left
    cases hrest : (s.dropWhile is_space).dropWhile (fun c => !is_space c) with
    | nil => simp [prefix_sscanf, h, hrest]
    | cons c rest =>
      have hsp := dropWhile_head _ _ c rest hrest
      have hc : c ≠ '/' := by
        intro e
        rw [e] at hsp
        revert hsp
        decide
      simp [prefix_sscanf, h, hrest, hc]

theorem init_of_fits (inet_pton : List Char → Option in6_addr) (old : Option in6_prefix)
    (s : List Char) (hfit : (prefix_sscanf s).addr_str.length < INET6_ADDRSTRLEN) :
    ipv6_target_prefix_init inet_pton old s = some (1, old) := by
  have h1 : ¬ INET6_ADDRSTRLEN < (prefix_sscanf s).addr_str.length + 1 := by omega
  have h2 : (prefix_sscanf s).ret ≠ 2 := by
    rcases prefix_sscanf_ret s with h | h <;> rw [h] <;> decide
  simp only [ipv6_target_prefix_init, h1, if_false, h2, ne_eq, not_false_eq_true, if_true]

/-- C11, evaluated on the code: on the string `2001:db8::/126`, whose literal
`inet_pton` accepts, `sscanf` stores one item only (`%s` takes the whole string,
slash and length included) and `ipv6_target_prefix_init` returns 1 with no record
installed. -/
theorem c11_init_fails_on_valid_prefix :
    inet_pton_doc "2001:db8::".toList = some (doc_addr 0 0) ∧
      prefix_sscanf "2001:db8::/126".toList =
        { ret := 1, addr_str := "2001:db8::/126".toList, prefixlen := none } ∧
      ipv6_target_prefix_init inet_pton_doc none "2001:db8::/126".toList =
        some (1, none) := by
  decide

/-- C12, evaluated on the code: on a string of 46 letters `a`, which holds no
`/` and no length, `%s` stores 46 characters and a terminator in `addr_str`, one
more than its `INET6_ADDRSTRLEN` = 46 places, so the call has no defined
result. -/
theorem c12_long_string_overflows_addr_str :
    (prefix_sscanf (List.replicate 46 'a')).addr_str.length + 1 = 47 ∧
      INET6_ADDRSTRLEN = 46 ∧
      ipv6_target_prefix_init inet_pton_doc none (List.replicate 46 'a') = none := by
  decide

/-! ## The file source -/

theorem takeWhile_all (q : Char → Bool) (l : List Char) (h : ∀ c ∈ l, q c = true) :
    l.takeWhile q = l := by
  induction l with
  | nil => rfl
  | cons x xs ih =>
    rw [List.takeWhile_cons, if_pos (h x (List.mem_cons_self _ _)),
      ih (fun c hc => h c (List.mem_cons_of_mem _ hc))]

theorem takeWhile_stop (q : Char → Bool) (l : List Char) (x : Char) (r : List Char)
    (h : ∀ c ∈ l, q c = true) (hx : q x = false) : (l ++ x :: r).takeWhile q = l := by
  induction l with
  | nil => simp [List.takeWhile_cons, hx]
  | cons y ys ih =>
    rw [List.cons_append, List.takeWhile_cons, if_pos (h y (List.mem_cons_self _ _)),
      ih (fun c hc => h c (List.mem_cons_of_mem _ hc))]

theorem fgets_read_line (l : List Char) (hnl : newline ∉ l) :
    ∀ (n : Nat) (rest : List Char), l.length < n →
      fgets_read n (l ++ newline :: rest) = (l ++ [newline], rest) := by
  induction l with
  | nil =>
    intro n rest hn
    cases n with
    | zero => simp at hn
    | succ n => simp [fgets_read]
  | cons x xs ih =>
    intro n rest hn
    cases n with
    | zero => simp at hn
    | succ n =>
      have hx : x ≠ newline := fun e => hnl (e ▸ List.mem_cons_self _ _)
      have hxs : newline ∉ xs := fun hm => hnl (List.mem_cons_of_mem _ hm)
      have hlen : xs.length < n := by simpa using hn
      simp [fgets_read, hx, ih hxs n rest hlen]

theorem fgets_read_all (l : List Char) (hnl : newline ∉ l) :
    ∀ (n : Nat), l.length ≤ n → fgets_read n l = (l, []) := by
  induction l with
  | nil =>
    intro n _
    cases n <;> rfl
  | cons x xs ih =>
    intro n hn
    cases n with
    | zero => simp at hn
    | succ n =>
      have hx : x ≠ newline := fun e => hnl (e ▸ List.mem_cons_self _ _)
      have hxs : newline ∉ xs := fun hm => hnl (List.mem_cons_of_mem _ hm)
      have hlen : xs.length ≤ n := by simpa using hn
      simp [fgets_read, hx, ih hxs n hlen]

theorem fgets_read_take (n : Nat) :
    ∀ (fp : List Char), n ≤ fp.length → newline ∉ fp.take n →
      fgets_read n fp = (fp.take n, fp.drop n) := by
  induction n with
  | zero => intro fp _ _; simp [fgets_read]
  | succ n ih =>
    intro fp hlen hnl
    cases fp with
    | nil => simp at hlen
    | cons x xs =>
      have hx : x ≠ newline := fun e => hnl (by simp [e])
      have hxs : newline ∉ xs.take n := fun hm => hnl (by simp [hm])
      have hl : n ≤ xs.length := by simpa using hlen
      simp [fgets_read, hx, ih xs hl hxs]

theorem line_of_buffer (l : List Char) (hnl : newline ∉ l) (hnul : nul ∉ l) :
    (c_string (l ++ [newline])).takeWhile (fun c => c ≠ newline) = l ∧
      (c_string l).takeWhile (fun c => c ≠ newline) = l := by
  have h1 : ∀ c ∈ l, decide (c ≠ nul) = true := fun c hc =>
    decide_eq_true (fun e => hnul (e ▸ hc))
  have h2 : ∀ c ∈ l, decide (c ≠ newline) = true := fun c hc =>
    decide_eq_true (fun e => hnl (e ▸ hc))
  have h3 : c_string l = l := takeWhile_all _ l h1
  have h4 : c_string (l ++ [newline]) = l ++ [newline] := by
    refine takeWhile_all _ _ (fun c hc => ?_)
    rcases List.mem_append.mp hc with hc | hc
    · exact h1 c hc
    · rw [List.mem_singleton.mp hc]; decide
  rw [h3, h4]
  exact ⟨takeWhile_stop _ l newline [] h2 (by decide), takeWhile_all _ l h2⟩

theorem get_line (inet_pton : List Char → Option in6_addr) (l : List Char) (v : in6_addr)
    (rest : List Char) (dst : in6_addr) (h : valid_line inet_pton l v) :
    ipv6_target_file_get_ipv6 inet_pton (l ++ newline :: rest) dst =
      { rc := 0, fp := rest, dst := v, fatal := [] } := by
  obtain ⟨hv, _, hnl, hnul, hlen⟩ := h
  have hr := fgets_read_line l hnl 99 rest (by omega)
  have hf : fgets 100 (l ++ newline :: rest) = some (l ++ [newline], rest) := by
    simp [fgets, hr]
  simp only [ipv6_target_file_get_ipv6, hf, (line_of_buffer l hnl hnul).1, hv]

theorem get_last_line (inet_pton : List Char → Option in6_addr) (l : List Char)
    (v : in6_addr) (dst : in6_addr) (h : valid_line inet_pton l v) :
    ipv6_target_file_get_ipv6 inet_pton l dst =
      { rc := 0, fp := [], dst := v, fatal := [] } := by
  obtain ⟨hv, hne, hnl, hnul, hlen⟩ := h
  have hr := fgets_read_all l hnl 99 (by omega)
  have hf : fgets 100 l = some (l, []) := by
    simp [fgets, hr, hne]
  simp only [ipv6_target_file_get_ipv6, hf, (line_of_buffer l hnl hnul).2, hv]

theorem get_end_of_stream (inet_pton : List Char → Option in6_addr) (dst : in6_addr) :
    ipv6_target_file_get_ipv6 inet_pton [] dst =
      { rc := 1, fp := [], dst := dst, fatal := [] } := by
  rfl

theorem stream_of_cons (l : List Char) (rest : List (List Char)) (last_newline : Bool)
    (h : ¬ (rest = [] ∧ last_newline = false)) :
    stream_of (l :: rest) last_newline = l ++ newline :: stream_of rest last_newline := by
  cases rest with
  | nil =>
    cases last_newline with
    | false => exact absurd ⟨rfl, rfl⟩ h
    | true => rfl
  | cons r rs => cases last_newline <;> rfl

theorem file_calls_lines (inet_pton : List Char → Option in6_addr) (last_newline : Bool)
    (lines : List (List Char × in6_addr)) :
    ∀ (dst : in6_addr), (∀ lv ∈ lines, valid_line inet_pton lv.1 lv.2) →
      file_calls inet_pton (lines.length + 1) (stream_of (lines.map Prod.fst) last_newline)
          dst =
        lines.map (fun lv => (0, lv.2)) ++ [(1, ((lines.map Prod.snd).getLast?).getD dst)] := by
  induction lines with
  | nil =>
    intro dst _
    simp [file_calls, stream_of, get_end_of_stream]
  | cons lv rest ih =>
    intro dst h
    have hv : valid_line inet_pton lv.1 lv.2 := h lv (List.mem_cons_self _ _)
    have hrest : ∀ x ∈ rest, valid_line inet_pton x.1 x.2 :=
      fun x hx => h x (List.mem_cons_of_mem _ hx)
    have hlast : ((lv.2 :: rest.map Prod.snd).getLast?).getD dst =
        ((rest.map Prod.snd).getLast?).getD lv.2 := by
      rw [List.getLast?_cons]; rfl
    by_cases hc : rest.map Prod.fst = [] ∧ last_newline = false
    · obtain ⟨h1, h2⟩ := hc
      have hnil : rest = [] := by simpa using h1
      subst hnil
      subst h2
      simp [file_calls, stream_of, get_last_line inet_pton lv.1 lv.2 dst hv,
        get_end_of_stream]
    · have hs := stream_of_cons lv.1 (rest.map Prod.fst) last_newline hc
      have hg := get_line inet_pton lv.1 lv.2 (stream_of (rest.map Prod.fst) last_newline)
        dst hv
      have := ih lv.2 hrest
      simp only [List.map_cons, List.length_cons, hs, hlast, List.cons_append]
      rw [file_calls, hg]
      simp only [this]

/-! ## The claims on the initialisation and on the file source -/

/-- C13 fails as stated: at the end of the stream and on the line
`not-an-address` the function returns the same value, 1. -/
theorem c13_same_return_value :
    (ipv6_target_file_get_ipv6 inet_pton_doc [] (doc_addr 0 7)).rc = 1 ∧
      (ipv6_target_file_get_ipv6 inet_pton_doc ("not-an-address".toList ++ [newline])
          (doc_addr 0 7)).rc = 1 ∧
      (ipv6_target_file_get_ipv6 inet_pton_doc [] (doc_addr 0 7)).rc =
        (ipv6_target_file_get_ipv6 inet_pton_doc ("not-an-address".toList ++ [newline])
          (doc_addr 0 7)).rc := by
  decide

/-- C13 as amended: `ipv6_target_file_get_ipv6` returns 1 and leaves `*dst`
unwritten both at the end of the stream and on a line that `inet_pton` refuses;
the two differ in the reports only: none at the end of the stream, one, of the
refused line, through `log_fatal` on a parse failure. -/
theorem exhaustion_and_parse_failure (inet_pton : List Char → Option in6_addr)
    (fp buf fp1 : List Char) (dst : in6_addr) (hread : fgets 100 fp = some (buf, fp1))
    (hbad : inet_pton ((c_string buf).takeWhile (fun c => c ≠ newline)) = none) :
    ipv6_target_file_get_ipv6 inet_pton [] dst =
        { rc := 1, fp := [], dst := dst, fatal := [] } ∧
      ipv6_target_file_get_ipv6 inet_pton fp dst =
        { rc := 1, fp := fp1, dst := dst,
          fatal := [(c_string buf).takeWhile (fun c => c ≠ newline)] } := by
  refine ⟨rfl, ?_⟩
  simp only [ipv6_target_file_get_ipv6, hread, hbad, log_fatal, List.nil_append]

/-- The end of the stream and the line `not-an-address`, followed by one more
line. -/
theorem exhaustion_and_parse_failure_witness :
    ipv6_target_file_get_ipv6 inet_pton_doc [] (doc_addr 0 7) =
        { rc := 1, fp := [], dst := doc_addr 0 7, fatal := [] } ∧
      ipv6_target_file_get_ipv6 inet_pton_doc
          ("not-an-address".toList ++ newline :: "2001:db8::1".toList) (doc_addr 0 7) =
        { rc := 1, fp := "2001:db8::1".toList, dst := doc_addr 0 7,
          fatal := [(c_string ("not-an-address".toList ++ [newline])).takeWhile
            (fun c => c ≠ newline)] } :=
  exhaustion_and_parse_failure inet_pton_doc
    ("not-an-address".toList ++ newline :: "2001:db8::1".toList)
    ("not-an-address".toList ++ [newline]) "2001:db8::1".toList (doc_addr 0 7)
    (by decide) (by decide)

/-- C14: on a stream of `n` lines that `inet_pton` accepts, each shorter than
the line buffer and followed by a newline (the last newline optional), the first
`n` calls of `ipv6_target_file_get_ipv6` return 0 and hand out the values of the
lines in order, and call `n + 1` returns 1 and leaves `*dst` as it was. -/
theorem file_source_yields_lines (inet_pton : List Char → Option in6_addr)
    (lines : List (List Char × in6_addr)) (last_newline : Bool) (dst : in6_addr)
    (h : ∀ lv ∈ lines, valid_line inet_pton lv.1 lv.2) :
    file_calls inet_pton (lines.length + 1) (stream_of (lines.map Prod.fst) last_newline)
        dst =
      lines.map (fun lv => (0, lv.2)) ++ [(1, ((lines.map Prod.snd).getLast?).getD dst)] :=
  file_calls_lines inet_pton last_newline lines dst h

/-- The stream of the two lines `2001:db8::1` and `2001:db8::2`: three calls
give the two addresses and then 1. -/
theorem file_source_yields_lines_witness :
    stream_of ["2001:db8::1".toList, "2001:db8::2".toList] true =
        "2001:db8::1".toList ++ newline :: ("2001:db8::2".toList ++ [newline]) ∧
      file_calls inet_pton_doc 3
          (stream_of ["2001:db8::1".toList, "2001:db8::2".toList] true) (doc_addr 0 7) =
        [(0, doc_addr 0 1), (0, doc_addr 0 2), (1, doc_addr 0 2)] :=
  ⟨by decide,
    file_source_yields_lines inet_pton_doc
      [("2001:db8::1".toList, doc_addr 0 1), ("2001:db8::2".toList, doc_addr 0 2)] true
      (doc_addr 0 7) (by decide)⟩

theorem inet_pton_doc_short (s : List Char) (hs : s.length = 99) : inet_pton_doc s = none := by
  have h1 : s ≠ "2001:db8::".toList := fun e => by rw [e] at hs; revert hs; decide
  have h2 : s ≠ "2001:db8::1".toList := fun e => by rw [e] at hs; revert hs; decide
  have h3 : s ≠ "2001:db8::2".toList := fun e => by rw [e] at hs; revert hs; decide
  unfold inet_pton_doc
  rw [if_neg h1, if_neg h2, if_neg h3]

/-- C18 fails as stated: the line `nul_line` has 113 bytes and no newline among
its first 99, yet on it `ipv6_target_file_get_ipv6` returns 0 and hands out
`2001:db8::1`, parsed from the part of the line before its NUL. -/
theorem c18_truncated_line_accepted :
    nul_line.length = 113 ∧ newline ∉ nul_line.take 99 ∧
      inet_pton_doc nul_line = none ∧
      ipv6_target_file_get_ipv6 inet_pton_doc nul_line (doc_addr 0 7) =
        { rc := 0, fp := nul_line.drop 99, dst := doc_addr 0 1, fatal := [] } := by
  decide

/-- C18 as amended: when `inet_pton` accepts no string of 99 characters, a call
of `ipv6_target_file_get_ipv6` on a stream whose first 99 bytes hold neither a
newline nor a NUL returns 1, reports those 99 bytes through `log_fatal`, leaves
`*dst` unwritten and leaves the bytes after them in the stream. -/
theorem over_length_line_refused (inet_pton : List Char → Option in6_addr)
    (fp : List Char) (dst : in6_addr) (hip : ∀ s, s.length = 99 → inet_pton s = none)
    (hlen : 99 ≤ fp.length) (hnl : newline ∉ fp.take 99) (hnul : nul ∉ fp.take 99) :
    ipv6_target_file_get_ipv6 inet_pton fp dst =
      { rc := 1, fp := fp.drop 99, dst := dst, fatal := [fp.take 99] } := by
  have hr := fgets_read_take 99 fp hlen hnl
  have hl99 : (fp.take 99).length = 99 := by rw [List.length_take]; omega
  have hne : fp.take 99 ≠ [] := by
    intro e
    rw [e] at hl99
    cases hl99
  have hf : fgets 100 fp = some (fp.take 99, fp.drop 99) := by
    simp [fgets, hr, hne]
  have hline := (line_of_buffer (fp.take 99) hnl hnul).2
  simp only [ipv6_target_file_get_ipv6, hf, hline, hip _ hl99, log_fatal, List.nil_append]

/-- The line `long_line` of 111 bytes: the call returns 1, and the literal at the
end of the line stays in the stream. -/
theorem over_length_line_refused_witness :
    long_line.drop 99 = "2001:db8::1".toList ++ [newline] ∧
      ipv6_target_file_get_ipv6 inet_pton_doc long_line (doc_addr 0 7) =
        { rc := 1, fp := long_line.drop 99, dst := doc_addr 0 7,
          fatal := [long_line.take 99] } :=
  ⟨by decide,
    over_length_line_refused inet_pton_doc long_line (doc_addr 0 7) inet_pton_doc_short
      (by decide) (by decide) (by decide)⟩

end Zmap
